import Mathlib

set_option maxHeartbeats 1600000

/-!
Verification development for the xmr-btc-swap repository.

We give a shallow embedding of the Alice swap state machine
(`swap/src/alice/swap.rs`) and of the peer substream layer
(`src/lib.rs`, the `NMessageHandler` / `NMessageBehaviour` types),
and prove the specified properties about them.

Opaque cryptographic and network payloads (keys, signatures, raw
transactions, response channels) are represented by natural-number
tokens: the embedded code never inspects them, it only moves them
around, so any type with decidable equality is faithful.

The awaited operations of the state machine (`negotiate`,
`wait_for_locked_bitcoin`, `lock_xmr`, the wallet watchers, the
transaction builders from `alice::steps` and the `select` races) are
not themselves under the analysed sources; the driver `run_until`
only branches on their outcomes.  They are therefore modelled as an
environment `Env` of outcome oracles over which the theorems
quantify, mirroring exactly where the source awaits each of them and
which constructor of the result it matches on.
-/

namespace XmrBtcSwap

/-- Opaque token for an adaptor-encrypted signature. -/
abbrev EncryptedSignature := Nat

/-- Opaque token for a raw Bitcoin transaction observed on chain. -/
abbrev RawTransaction := Nat

/-- Opaque token for a fully signed Bitcoin transaction. -/
abbrev SignedTransaction := Nat

/-- Opaque token for a Monero private (spend) key. -/
abbrev PrivateKey := Nat

/-- Opaque token for the volatile libp2p response channel
(`ResponseChannel<AliceToBob>`). -/
abbrev ResponseChannel := Nat

/-- The `(btc, xmr)` amount pair fixed at negotiation (`SwapAmounts`). -/
structure SwapAmounts where
  btc : Nat
  xmr : Nat
deriving DecidableEq, Repr

/-- Opaque payload of `xmr_btc::alice::State0`. -/
structure State0 where
  payload : Nat
deriving DecidableEq, Repr

/-- The fields of `xmr_btc::alice::State3` that the analysed code reads:
`swap.rs` reads `btc`, `xmr`, `tx_lock`, `cancel_timelock`,
`punish_timelock`, `a`, `B`, `refund_address`, `redeem_address`,
`punish_address`, `s_a`, `S_b_bitcoin`, `v`, `tx_cancel_sig_bob` and
`tx_punish_sig_bob`.  Each payload is an opaque token. -/
structure State3 where
  btc : Nat
  xmr : Nat
  tx_lock : Nat
  cancel_timelock : Nat
  punish_timelock : Nat
  a_public : Nat
  B : Nat
  refund_address : Nat
  redeem_address : Nat
  punish_address : Nat
  s_a : Nat
  S_b_bitcoin : Nat
  v : Nat
  tx_cancel_sig_bob : Nat
  tx_punish_sig_bob : Nat
deriving DecidableEq, Repr

/-- Modelled from the spec: `bitcoin::TxCancel` built by the pure,
deterministic builder `TxCancel::new(&tx_lock, cancel_timelock,
a.public(), B)` (§4.A: "Builders are pure functions", "deterministic
construction").  The body of the builder is not under the analysed
sources, so the transaction is modelled as the record of the builder
arguments, which makes it exactly a deterministic function of
them. -/
structure TxCancel where
  tx_lock : Nat
  cancel_timelock : Nat
  a_public : Nat
  B : Nat
deriving DecidableEq, Repr

/-- The builder `bitcoin::TxCancel::new`. -/
def TxCancel.new (tx_lock cancel_timelock a_public B : Nat) : TxCancel :=
  ⟨tx_lock, cancel_timelock, a_public, B⟩

/-- Modelled from the spec: `bitcoin::TxRefund` built by the pure,
deterministic builder `TxRefund::new(&tx_cancel, &refund_address)`
(§4.A), modelled as the record of the builder arguments. -/
structure TxRefund where
  tx_cancel : TxCancel
  refund_address : Nat
deriving DecidableEq, Repr

/-- The builder `bitcoin::TxRefund::new`. -/
def TxRefund.new (tx_cancel : TxCancel) (refund_address : Nat) : TxRefund :=
  ⟨tx_cancel, refund_address⟩

/-- The in-memory `AliceState` enum of `swap/src/alice/swap.rs`,
variant for variant and field for field. -/
inductive AliceState where
  | Started (amounts : SwapAmounts) (state0 : State0)
  | Negotiated (channel : Option ResponseChannel) (amounts : SwapAmounts) (state3 : State3)
  | BtcLocked (channel : Option ResponseChannel) (amounts : SwapAmounts) (state3 : State3)
  | XmrLocked (state3 : State3)
  | EncSigLearned (state3 : State3) (encrypted_signature : EncryptedSignature)
  | BtcRedeemed
  | BtcCancelled (state3 : State3) (tx_cancel : TxCancel)
  | BtcRefunded (spend_key : PrivateKey) (state3 : State3)
  | BtcPunishable (tx_refund : TxRefund) (state3 : State3)
  | XmrRefunded
  | CancelTimelockExpired (state3 : State3)
  | BtcPunished
  | SafelyAborted
deriving DecidableEq, Repr

/-- The `AliceEndState` enum of the persisted-state module, whose four
variants are enumerated exhaustively by both `From` impls in
`swap.rs`. -/
inductive AliceEndState where
  | SafelyAborted
  | BtcRedeemed
  | XmrRefunded
  | BtcPunished
deriving DecidableEq, Repr

/-- The persisted `state::Alice` enum.  Its variants and fields are
exactly those constructed by `impl From<&AliceState> for state::Alice`
and destructured by `impl From<state::Alice> for AliceState` in
`swap.rs`. -/
inductive Alice where
  | Started (amounts : SwapAmounts) (state0 : State0)
  | Negotiated (state3 : State3)
  | BtcLocked (state3 : State3)
  | XmrLocked (state3 : State3)
  | EncSigLearned (state : State3) (encrypted_signature : EncryptedSignature)
  | CancelTimelockExpired (state3 : State3)
  | BtcCancelled (state3 : State3)
  | BtcPunishable (state3 : State3)
  | BtcRefunded (state3 : State3) (spend_key : PrivateKey)
  | Done (end_state : AliceEndState)
deriving DecidableEq, Repr

/-- The conversion `impl From<&AliceState> for state::Alice` of `swap.rs`: the
serialisation direction, dropping the volatile `channel` field, the
recomputable `amounts`, and the recomputable `tx_cancel` / `tx_refund`
transactions. -/
def db_from_alice_state : AliceState → Alice
  | .Negotiated _ _ state3 => .Negotiated state3
  | .BtcLocked _ _ state3 => .BtcLocked state3
  | .XmrLocked state3 => .XmrLocked state3
  | .EncSigLearned state3 encrypted_signature =>
      .EncSigLearned state3 encrypted_signature
  | .BtcRedeemed => .Done .BtcRedeemed
  | .BtcCancelled state3 _ => .BtcCancelled state3
  | .BtcRefunded spend_key state3 => .BtcRefunded state3 spend_key
  | .BtcPunishable _ state3 => .BtcPunishable state3
  | .XmrRefunded => .Done .XmrRefunded
  | .CancelTimelockExpired state3 => .CancelTimelockExpired state3
  | .BtcPunished => .Done .BtcPunished
  | .SafelyAborted => .Done .SafelyAborted
  | .Started amounts state0 => .Started amounts state0

/-- The conversion `impl From<state::Alice> for AliceState` of `swap.rs`: the resume
direction.  The `channel` field is set to `None`, `amounts` is rebuilt
from `state3.btc` / `state3.xmr`, and `tx_cancel` / `tx_refund` are
rebuilt with the deterministic builders. -/
def alice_state_from_db : Alice → AliceState
  | .Started amounts state0 => .Started amounts state0
  | .Negotiated state3 =>
      .Negotiated none ⟨state3.btc, state3.xmr⟩ state3
  | .BtcLocked state3 =>
      .BtcLocked none ⟨state3.btc, state3.xmr⟩ state3
  | .XmrLocked state3 => .XmrLocked state3
  | .EncSigLearned state encrypted_signature =>
      .EncSigLearned state encrypted_signature
  | .CancelTimelockExpired state3 => .CancelTimelockExpired state3
  | .BtcCancelled state =>
      .BtcCancelled state
        (TxCancel.new state.tx_lock state.cancel_timelock state.a_public state.B)
  | .BtcPunishable state =>
      .BtcPunishable
        (TxRefund.new
          (TxCancel.new state.tx_lock state.cancel_timelock state.a_public state.B)
          state.refund_address)
        state
  | .BtcRefunded state3 spend_key => .BtcRefunded spend_key state3
  | .Done end_state =>
      match end_state with
      | .SafelyAborted => .SafelyAborted
      | .BtcRedeemed => .BtcRedeemed
      | .XmrRefunded => .XmrRefunded
      | .BtcPunished => .BtcPunished

/-- The predicate `is_complete` of `swap.rs`. -/
def is_complete : AliceState → Bool
  | .XmrRefunded | .BtcRedeemed | .BtcPunished | .SafelyAborted => true
  | _ => false

/-- The enum `xmr_btc::ExpiredTimelocks` as matched in the `XmrLocked` arm. -/
inductive ExpiredTimelocks where
  | None
  | Cancel
  | Punish
deriving DecidableEq, Repr

/-- Outcomes of the awaited operations of `run_until`.  Each field
corresponds to one awaited call of `swap/src/alice/swap.rs`; a
`Sum` field is the outcome of a `select` race, `.inl` meaning the
left future completed first (with the carried result) and `.inr` the
right one.  Errors are opaque `Nat` tokens.

- `xmr_locked_race` races `wait_for_cancel_timelock_to_expire`
  (left; the source discards its result with `Either::Left(_)`)
  against `wait_for_bitcoin_encrypted_signature` (right; the source
  propagates its `Result` with `enc_sig?`).
- `punishable_race` races `publish_bitcoin_punish_transaction`
  (left; result discarded by `Either::Left(_)`) against
  `watch_for_raw_transaction(tx_refund.txid())` (right; an
  infallible raw transaction). -/
structure Env where
  negotiate : Except Nat (ResponseChannel × State3)
  wait_for_locked_bitcoin : Except Nat Unit
  lock_xmr : Except Nat Unit
  expired_timelocks : Except Nat ExpiredTimelocks
  xmr_locked_race : Sum (Except Nat Unit) (Except Nat EncryptedSignature)
  build_bitcoin_redeem_transaction :
    State3 → EncryptedSignature → Except Nat SignedTransaction
  wait_for_cancel_timelock_to_expire : Except Nat Unit
  publish_bitcoin_redeem_transaction : Except Nat Unit
  publish_cancel_transaction : Except Nat TxCancel
  transaction_block_height : Nat
  wait_for_bitcoin_refund : Except Nat (TxRefund × Option RawTransaction)
  extract_monero_private_key :
    RawTransaction → TxRefund → Except Nat PrivateKey
  create_and_load_wallet_for_output : Except Nat Unit
  build_bitcoin_punish_transaction : Except Nat SignedTransaction
  punishable_race : Sum (Except Nat Unit) RawTransaction

/-- Result of processing one `match state` arm of `run_until`:

- `ret s ws`: the arm returned `Ok(s)` without recursing, after
  performing the `db.insert_latest_state` writes `ws` (in order);
- `cont s ws sw`: the arm transitioned to `s` after the writes `ws`
  and recursed; `sw = true` marks the one branch (`BtcCancelled`, no
  refund seen) that recurses through `swap`, switching the target
  predicate to `is_complete`;
- `fail e ws`: the arm propagated error `e` via `?` after the writes
  `ws`. -/
inductive StepRes where
  | ret (s : AliceState) (writes : List Alice)
  | cont (s : AliceState) (writes : List Alice) (switch_to_is_complete : Bool)
  | fail (e : Nat) (writes : List Alice)
deriving DecidableEq, Repr

/-- The `match state { .. }` body of `run_until` in
`swap/src/alice/swap.rs`, arm for arm, with every awaited call
replaced by the corresponding `Env` outcome.  It is entered only when
`is_target_state(&state)` is false (`run_until` below checks that
first, as the source does). -/
def run_until_step (env : Env) : AliceState → StepRes
  | .Started amounts _state0 =>
      match env.negotiate with
      | .error e => .fail e []
      | .ok (channel, state3) =>
          let state := AliceState.Negotiated (some channel) amounts state3
          .cont state [db_from_alice_state state] false
  | .Negotiated channel amounts state3 =>
      match channel with
      | some channel =>
          match env.wait_for_locked_bitcoin with
          | .error e => .fail e []
          | .ok _ =>
              let state := AliceState.BtcLocked (some channel) amounts state3
              .cont state [db_from_alice_state state] false
      | none =>
          let state := AliceState.SafelyAborted
          .cont state [db_from_alice_state state] false
  | .BtcLocked channel _amounts state3 =>
      match channel with
      | some _ =>
          match env.lock_xmr with
          | .error e => .fail e []
          | .ok _ =>
              let state := AliceState.XmrLocked state3
              .cont state [db_from_alice_state state] false
      | none =>
          let state := AliceState.SafelyAborted
          .cont state [db_from_alice_state state] false
  | .XmrLocked state3 =>
      match env.expired_timelocks with
      | .error e => .fail e []
      | .ok .None =>
          match env.xmr_locked_race with
          | .inl _ =>
              let state := AliceState.CancelTimelockExpired state3
              .cont state [db_from_alice_state state] false
          | .inr (.error e) => .fail e []
          | .inr (.ok enc_sig) =>
              let state := AliceState.EncSigLearned state3 enc_sig
              .cont state [db_from_alice_state state] false
      | .ok _ =>
          let state := AliceState.CancelTimelockExpired state3
          .cont state [db_from_alice_state state] false
  | .EncSigLearned state3 encrypted_signature =>
      match env.build_bitcoin_redeem_transaction state3 encrypted_signature with
      | .error _ =>
          match env.wait_for_cancel_timelock_to_expire with
          | .error e => .fail e []
          | .ok _ =>
              let state := AliceState.CancelTimelockExpired state3
              .cont state [db_from_alice_state state] false
      | .ok _ =>
          match env.publish_bitcoin_redeem_transaction with
          | .error e => .fail e []
          | .ok _ =>
              let state := AliceState.BtcRedeemed
              .cont state [db_from_alice_state state] false
  | .CancelTimelockExpired state3 =>
      match env.publish_cancel_transaction with
      | .error e => .fail e []
      | .ok tx_cancel =>
          let state := AliceState.BtcCancelled state3 tx_cancel
          .cont state [db_from_alice_state state] false
  | .BtcCancelled state3 _tx_cancel =>
      match env.wait_for_bitcoin_refund with
      | .error e => .fail e []
      | .ok (tx_refund, none) =>
          let state := AliceState.BtcPunishable tx_refund state3
          .cont state [db_from_alice_state state] true
      | .ok (tx_refund, some published_refund_tx) =>
          match env.extract_monero_private_key published_refund_tx tx_refund with
          | .error e => .fail e []
          | .ok spend_key =>
              let state := AliceState.BtcRefunded spend_key state3
              .cont state [db_from_alice_state state] false
  | .BtcRefunded _spend_key _state3 =>
      match env.create_and_load_wallet_for_output with
      | .error e => .fail e []
      | .ok _ =>
          let state := AliceState.XmrRefunded
          .ret state [db_from_alice_state state]
  | .BtcPunishable tx_refund state3 =>
      match env.build_bitcoin_punish_transaction with
      | .error e => .fail e []
      | .ok _ =>
          match env.punishable_race with
          | .inl _ =>
              let state := AliceState.BtcPunished
              .cont state [db_from_alice_state state] false
          | .inr published_refund_tx =>
              match env.extract_monero_private_key published_refund_tx tx_refund with
              | .error e => .fail e []
              | .ok spend_key =>
                  let state := AliceState.BtcRefunded spend_key state3
                  .cont state [db_from_alice_state state] false
  | .XmrRefunded => .ret .XmrRefunded []
  | .BtcRedeemed => .ret .BtcRedeemed []
  | .BtcPunished => .ret .BtcPunished []
  | .SafelyAborted => .ret .SafelyAborted []

/-- Error token standing for running out of recursion fuel; the
source recursion is bounded by the strictly increasing `rank`
below, so with fuel above `12` this token is never produced. -/
def outOfFuel : Nat := 1000000

/-- The driver `run_until` of `swap/src/alice/swap.rs`, driven by
`run_until_step` and a fuel counter.  Returns the resulting state
together with the ordered list of `db.insert_latest_state` writes
performed during the run.  A `cont` with the switch flag set (the
`swap(..)` call in the `BtcCancelled` arm) continues with
`is_complete` as the target predicate. -/
def run_until (env : Env) :
    Nat → (AliceState → Bool) → AliceState → Except Nat (AliceState × List Alice)
  | 0, _, _ => .error outOfFuel
  | fuel + 1, is_target_state, state =>
      if is_target_state state then .ok (state, [])
      else
        match run_until_step env state with
        | .ret s ws => .ok (s, ws)
        | .cont s ws sw =>
            match run_until env fuel (if sw then is_complete else is_target_state) s with
            | .ok (r, ws2) => .ok (r, ws ++ ws2)
            | .error e => .error e
        | .fail e _ => .error e

/-- The entry point `swap` of `swap/src/alice/swap.rs`: `run_until` with the
`is_complete` target. -/
def swap (env : Env) (fuel : Nat) (state : AliceState) :
    Except Nat (AliceState × List Alice) :=
  run_until env fuel is_complete state

/-- One-step transition relation of the Alice machine: some
environment makes the `run_until` arm for `s` either recurse into
`s2` or return `s2` as a freshly entered state (the `BtcRefunded`
arm returns `Ok(XmrRefunded)` without recursing; the terminal arms
return the state itself unchanged, which is not a transition). -/
def StepTo (s s2 : AliceState) : Prop :=
  ∃ env : Env,
    (∃ ws sw, run_until_step env s = .cont s2 ws sw) ∨
    (∃ ws, run_until_step env s = .ret s2 ws ∧ s2 ≠ s)

/-- Reachability in zero or more transitions. -/
def Reachable (s s2 : AliceState) : Prop :=
  Relation.ReflTransGen StepTo s s2

/-- A topological rank on the state graph of the Alice machine; every
transition strictly increases it, so the machine never revisits a
state. -/
def rank : AliceState → Nat
  | .Started .. => 0
  | .Negotiated .. => 1
  | .BtcLocked .. => 2
  | .XmrLocked _ => 3
  | .EncSigLearned .. => 4
  | .CancelTimelockExpired _ => 5
  | .BtcCancelled .. => 6
  | .BtcPunishable .. => 7
  | .BtcRefunded .. => 8
  | .XmrRefunded => 9
  | .BtcRedeemed => 10
  | .BtcPunished => 10
  | .SafelyAborted => 10

/-- States that can never again reach the missing-channel abort: not
a `Negotiated` or `BtcLocked` with `channel = None` and not already
`SafelyAborted`. -/
def channel_safe : AliceState → Bool
  | .Negotiated none _ _ => false
  | .BtcLocked none _ _ => false
  | .SafelyAborted => false
  | _ => true

/-- A sample `State3` payload for witnesses. -/
def s3ex : State3 := ⟨0, 0, 0, 0, 0, 0, 0, 0, 0, 0, 0, 0, 0, 0, 0⟩

/-- A sample `TxRefund` for witnesses. -/
def txrex : TxRefund := ⟨⟨0, 0, 0, 0⟩, 0⟩

/-- An environment in which every awaited operation succeeds, the
timelocks have not expired, the encrypted signature wins the
`XmrLocked` race, no refund transaction is seen before the punish
timelock, and the punish transaction wins the `BtcPunishable`
race. -/
def envAllOk : Env where
  negotiate := .ok (0, s3ex)
  wait_for_locked_bitcoin := .ok ()
  lock_xmr := .ok ()
  expired_timelocks := .ok .None
  xmr_locked_race := .inr (.ok 0)
  build_bitcoin_redeem_transaction := fun _ _ => .ok 0
  wait_for_cancel_timelock_to_expire := .ok ()
  publish_bitcoin_redeem_transaction := .ok ()
  publish_cancel_transaction := .ok ⟨0, 0, 0, 0⟩
  transaction_block_height := 0
  wait_for_bitcoin_refund := .ok (txrex, none)
  extract_monero_private_key := fun _ _ => .ok 0
  create_and_load_wallet_for_output := .ok ()
  build_bitcoin_punish_transaction := .ok 0
  punishable_race := .inl (.ok ())

/-- Whether, in a persisted state, Alice has already performed her
irreversible on-chain action.  Her only irreversible action is
publishing the Monero lock (`lock_xmr`, the transition out of
`BtcLocked`; the source comments the abort branches with "Alice did
not lock Xmr yet"), so the states before that transition, and the
safely aborted end state, have taken none. -/
def xmr_lock_published : Alice → Bool
  | .Started .. => false
  | .Negotiated _ => false
  | .BtcLocked _ => false
  | .Done .SafelyAborted => false
  | _ => true

/-- Whether the in-memory variant of a persisted state carries the
volatile response-channel field that serialisation drops. -/
def has_volatile_channel : Alice → Bool
  | .Negotiated _ => true
  | .BtcLocked _ => true
  | _ => false

/-- Resuming `db` aborts on the missing channel: whatever the
environment, the first arm `run_until` takes transitions to
`SafelyAborted` and checkpoints it. -/
def resume_aborts_on_missing_channel (db : Alice) : Prop :=
  ∀ env : Env,
    run_until_step env (alice_state_from_db db) =
      .cont .SafelyAborted [.Done .SafelyAborted] false

/-- An environment identical to `envAllOk` except that
`build_bitcoin_redeem_transaction` rejects the adaptor signature as
malformed. -/
def envBadAdaptor : Env :=
  { envAllOk with build_bitcoin_redeem_transaction := fun _ _ => .error 7 }

/-- An environment identical to `envAllOk` except that the refund
transaction is observed on chain and
`extract_monero_private_key` fails (the recovered secret does not
match the expected point). -/
def envBadExtract : Env :=
  { envAllOk with
      wait_for_bitcoin_refund := .ok (txrex, some 5)
      extract_monero_private_key := fun _ _ => .error 3
      punishable_race := .inr 5 }

/-- A target predicate satisfied exactly by `BtcPunishable`, used to
exercise the predicate switch of the `BtcCancelled` arm. -/
def is_btc_punishable : AliceState → Bool
  | .BtcPunishable .. => true
  | _ => false

/-- Peers are identified by opaque stable tokens (`PeerId`). -/
abbrev PeerId := Nat

/-- Remote addresses as opaque tokens (`Multiaddr`). -/
abbrev Multiaddr := Nat

/-- One direction of the per-connection handler state of `src/lib.rs`
(`InboundProtocolState` / `OutboundProtocolState`); protocol
closures, substreams and in-flight futures are opaque tokens. -/
inductive ProtocolState where
  | None
  | PendingSubstream (protocol_fn : Nat)
  | PendingProtocolFn (substream : Nat)
  | ReadyToPoll (protocol : Nat)
  | Done
  | Poisoned
deriving DecidableEq, Repr

/-- The struct `NMessageHandler` of `src/lib.rs`: the two direction states and
the pending outbound substream request.  The `info` protocol-name
field plays no role in the analysed control flow and is omitted. -/
structure NMessageHandler where
  inbound_state : ProtocolState
  outbound_state : ProtocolState
  substream_request : Option Unit
deriving DecidableEq, Repr

/-- The constructor `NMessageHandler::new`. -/
def NMessageHandler.new : NMessageHandler := ⟨.None, .None, none⟩

/-- The handler aborting the task: the `unimplemented!`, `panic!` and
`unreachable!` macros of the source. -/
inductive HandlerPanic where
  | unimplemented_reached
  | illegal_state
deriving DecidableEq, Repr

/-- The method `NMessageHandler::inject_dial_upgrade_error` of `src/lib.rs`: the
whole body is `unimplemented!("TODO: handle this")`, which aborts the
handler for every state and every upgrade error. -/
def inject_dial_upgrade_error (_h : NMessageHandler) (_e : Nat) :
    Except HandlerPanic NMessageHandler :=
  .error .unimplemented_reached

/-- Outcome of polling an in-flight (opaque) protocol future. -/
inductive FutureOutcome where
  | pending
  | finished (value : Nat)
  | failed (e : Nat)
deriving DecidableEq, Repr

/-- Environment for the handler: what each opaque future does when
polled. -/
structure HandlerEnv where
  poll_future : Nat → FutureOutcome

/-- The enum `ProtocolOutEvent` of `src/lib.rs` (handler-level, untagged). -/
inductive ProtocolOutEvent where
  | InboundFinished (value : Nat)
  | OutboundFinished (value : Nat)
  | InboundFailed (e : Nat)
  | OutboundFailed (e : Nat)
deriving DecidableEq, Repr

/-- The `ProtocolsHandlerEvent` results of `NMessageHandler::poll`. -/
inductive HandlerPollResult where
  | OutboundSubstreamRequest
  | Custom (event : ProtocolOutEvent)
  | Pending
deriving DecidableEq, Repr

/-- The method `NMessageHandler::poll` of `src/lib.rs`: first flush a pending
outbound substream request; then poll the inbound direction (a still
pending inbound future short-circuits the whole poll with
`Poll::Pending`); then the outbound direction; a `Poisoned` state is
unreachable and aborts. -/
def NMessageHandler.poll (henv : HandlerEnv) (h : NMessageHandler) :
    Except HandlerPanic (HandlerPollResult × NMessageHandler) :=
  match h.substream_request with
  | some _ =>
      .ok (.OutboundSubstreamRequest, { h with substream_request := none })
  | none =>
  match h.inbound_state with
  | .ReadyToPoll protocol =>
      (match henv.poll_future protocol with
       | .finished value =>
           .ok (.Custom (.InboundFinished value),
             { h with inbound_state := .Done })
       | .failed e =>
           .ok (.Custom (.InboundFailed e),
             { h with inbound_state := .Done })
       | .pending => .ok (.Pending, h))
  | .Poisoned =>
      .error .illegal_state
  | _ =>
  match h.outbound_state with
  | .ReadyToPoll protocol =>
      (match henv.poll_future protocol with
       | .finished value =>
           .ok (.Custom (.OutboundFinished value),
             { h with outbound_state := .Done })
       | .failed e =>
           .ok (.Custom (.OutboundFailed e),
             { h with outbound_state := .Done })
       | .pending => .ok (.Pending, h))
  | .Poisoned =>
      .error .illegal_state
  | _ => .ok (.Pending, h)

/-- The enum `ProtocolInEvent` of `src/lib.rs`; the boxed protocol closures
are opaque tokens. -/
inductive ProtocolInEvent where
  | ExecuteInbound (protocol_fn : Nat)
  | ExecuteOutbound (protocol_fn : Nat)
deriving DecidableEq, Repr

/-- The enum `BehaviourOutEvent` of `src/lib.rs`: a handler event tagged with
the peer. -/
inductive BehaviourOutEvent where
  | InboundFinished (peer : PeerId) (value : Nat)
  | OutboundFinished (peer : PeerId) (value : Nat)
  | InboundFailed (peer : PeerId) (e : Nat)
  | OutboundFailed (peer : PeerId) (e : Nat)
deriving DecidableEq, Repr

/-- The `NetworkBehaviourAction` results of
`NMessageBehaviour::poll`: deliver a queued in-event to the handler
of a peer, or emit a behaviour event to the swarm; `none` below is
`Poll::Pending`. -/
inductive BehaviourAction where
  | NotifyHandler (peer : PeerId) (event : ProtocolInEvent)
  | GenerateEvent (event : BehaviourOutEvent)
deriving DecidableEq, Repr

/-- The struct `NMessageBehaviour` of `src/lib.rs`: the two `VecDeque`s as lists
(front at the head) and `connected_peers : HashMap<PeerId,
Vec<Multiaddr>>` as an association list. -/
structure NMessageBehaviour where
  protocol_in_events : List (PeerId × ProtocolInEvent)
  protocol_out_events : List (PeerId × ProtocolOutEvent)
  connected_peers : List (PeerId × List Multiaddr)
deriving DecidableEq, Repr

/-- The constructor `NMessageBehaviour::new`. -/
def NMessageBehaviour.new : NMessageBehaviour := ⟨[], [], []⟩

/-- The test `HashMap::contains_key` on the association list. -/
def contains_key (m : List (PeerId × List Multiaddr)) (peer : PeerId) :
    Bool :=
  m.any fun kv => kv.1 == peer

/-- The operation `HashMap::entry(peer).or_default()` followed by an update of the
entry value: updates the address list stored at `peer`, inserting an
updated empty entry when the key is absent. -/
def entry_or_default_update (m : List (PeerId × List Multiaddr))
    (peer : PeerId) (f : List Multiaddr → List Multiaddr) :
    List (PeerId × List Multiaddr) :=
  if contains_key m peer then
    m.map fun kv => if kv.1 == peer then (kv.1, f kv.2) else kv
  else
    m ++ [(peer, f [])]

/-- The method `inject_connection_established`: pushes the remote address onto
the entry of the peer. -/
def NMessageBehaviour.inject_connection_established
    (b : NMessageBehaviour) (peer : PeerId) (multiaddr : Multiaddr) :
    NMessageBehaviour :=
  { b with
    connected_peers :=
      entry_or_default_update b.connected_peers peer fun l =>
        l ++ [multiaddr] }

/-- The method `inject_connection_closed`: retains the addresses different from
the closed one.  The source goes through `entry(..).or_default()`,
so the key itself stays present (with an empty address list) after
the last connection closes. -/
def NMessageBehaviour.inject_connection_closed
    (b : NMessageBehaviour) (peer : PeerId) (multiaddr : Multiaddr) :
    NMessageBehaviour :=
  { b with
    connected_peers :=
      entry_or_default_update b.connected_peers peer fun l =>
        l.filter fun addr => addr != multiaddr }

/-- The method `do_protocol_listener`: queues an inbound protocol request at the
back of `protocol_in_events`. -/
def NMessageBehaviour.do_protocol_listener
    (b : NMessageBehaviour) (peer : PeerId) (protocol_fn : Nat) :
    NMessageBehaviour :=
  { b with protocol_in_events :=
      b.protocol_in_events ++ [(peer, .ExecuteInbound protocol_fn)] }

/-- The method `do_protocol_dialer`: queues an outbound protocol request at the
back of `protocol_in_events`. -/
def NMessageBehaviour.do_protocol_dialer
    (b : NMessageBehaviour) (peer : PeerId) (protocol_fn : Nat) :
    NMessageBehaviour :=
  { b with protocol_in_events :=
      b.protocol_in_events ++ [(peer, .ExecuteOutbound protocol_fn)] }

/-- The method `NetworkBehaviour::inject_event`: queues a handler out-event. -/
def NMessageBehaviour.inject_event (b : NMessageBehaviour)
    (peer : PeerId) (event : ProtocolOutEvent) : NMessageBehaviour :=
  { b with protocol_out_events := b.protocol_out_events ++ [(peer, event)] }

/-- The out-event half of `NMessageBehaviour::poll`: pop the front
out-event and emit it tagged with its peer. -/
def poll_out_events (b : NMessageBehaviour) :
    NMessageBehaviour × Option BehaviourAction :=
  match b.protocol_out_events with
  | (peer, event) :: rest =>
      ({ b with protocol_out_events := rest },
        some (.GenerateEvent
          (match event with
           | .InboundFinished value => .InboundFinished peer value
           | .OutboundFinished value => .OutboundFinished peer value
           | .InboundFailed e => .InboundFailed peer e
           | .OutboundFailed e => .OutboundFailed peer e)))
  | [] => (b, none)

/-- The method `NMessageBehaviour::poll` of `src/lib.rs`: pop the front
in-event; if its peer has no `connected_peers` entry, push it to the
back of the queue and fall through to the out-events; otherwise
deliver it to the handler of that peer. -/
def NMessageBehaviour.poll (b : NMessageBehaviour) :
    NMessageBehaviour × Option BehaviourAction :=
  match b.protocol_in_events with
  | (peer, event) :: rest =>
      if ¬ contains_key b.connected_peers peer then
        poll_out_events
          { b with protocol_in_events := rest ++ [(peer, event)] }
      else
        ({ b with protocol_in_events := rest },
          some (.NotifyHandler peer event))
  | [] => poll_out_events b

/-- Iterated polling, collecting the returned actions in order. -/
def poll_n : Nat → NMessageBehaviour → NMessageBehaviour × List BehaviourAction
  | 0, b => (b, [])
  | n + 1, b =>
      match b.poll with
      | (b1, a) =>
          match poll_n n b1 with
          | (b2, rest) => (b2, a.toList ++ rest)

theorem db_from_alice_state_from_db (db : Alice) :
    db_from_alice_state (alice_state_from_db db) = db := by
  cases db with
  | Done e => cases e <;> rfl
  | _ => rfl

/-- C2: converting any persisted Alice state to the in-memory
`AliceState` and back to the persisted form is the identity; and
repeating the in-memory → persisted → in-memory round trip, starting
from any in-memory state, re-enters the same in-memory state (the
states are literally equal, the volatile channel field being `None`
after every resume), so resume is idempotent. -/
theorem c2_round_trip :
    (∀ db : Alice, db_from_alice_state (alice_state_from_db db) = db) ∧
    (∀ s : AliceState,
      alice_state_from_db (db_from_alice_state
        (alice_state_from_db (db_from_alice_state s))) =
      alice_state_from_db (db_from_alice_state s)) := by
  refine ⟨db_from_alice_state_from_db, fun s => ?_⟩
  rw [db_from_alice_state_from_db]

theorem stepTo_rank_lt {s s2 : AliceState} (h : StepTo s s2) :
    rank s < rank s2 := by
  obtain ⟨env, h | h⟩ := h
  · obtain ⟨ws, sw, h⟩ := h
    cases s <;> simp only [run_until_step] at h <;>
      (repeat' split at h) <;> simp_all <;>
      (try (obtain ⟨h1, -⟩ := h; subst h1; simp [rank]))
  · obtain ⟨ws, h, hne⟩ := h
    cases s <;> simp only [run_until_step] at h <;>
      (repeat' split at h) <;> simp_all <;>
      (try (obtain ⟨h1, -⟩ := h; subst h1; simp [rank]))

theorem reachable_rank_le {s s2 : AliceState} (h : Reachable s s2) :
    rank s ≤ rank s2 := by
  induction h with
  | refl => exact le_rfl
  | tail _ hstep ih => exact le_of_lt (lt_of_le_of_lt ih (stepTo_rank_lt hstep))

theorem stepTo_channel_safe {s s2 : AliceState} (h : StepTo s s2)
    (hs : channel_safe s = true) : channel_safe s2 = true := by
  obtain ⟨env, h | h⟩ := h
  · obtain ⟨ws, sw, h⟩ := h
    cases s <;> simp only [run_until_step] at h <;>
      (repeat' split at h) <;> simp_all [channel_safe] <;>
      (try (obtain ⟨h1, -⟩ := h; subst h1; simp [channel_safe]))
  · obtain ⟨ws, h, hne⟩ := h
    cases s <;> simp only [run_until_step] at h <;>
      (repeat' split at h) <;> simp_all [channel_safe] <;>
      (try (obtain ⟨h1, -⟩ := h; subst h1; simp [channel_safe]))

theorem reachable_channel_safe {s s2 : AliceState} (h : Reachable s s2)
    (hs : channel_safe s = true) : channel_safe s2 = true := by
  induction h with
  | refl => exact hs
  | tail _ hstep ih => exact stepTo_channel_safe hstep ih

/-- C1: resuming the persisted `Negotiated` or `BtcLocked` state and
running the machine transitions deterministically (for every
environment) to `SafelyAborted`; the abort-on-missing-channel
happens exactly at the resumed states that carry the volatile
channel field and in which Alice has taken no irreversible on-chain
action; and from any other resumed state (`Done SafelyAborted`
itself excepted, where the machine merely stays put) no reachable
state is ever `SafelyAborted`, i.e. the machine proceeds down its
normal redeem or cancel/refund path. -/
theorem c1_resume_missing_channel :
    (∀ env s3, swap env 3 (alice_state_from_db (Alice.Negotiated s3)) =
        .ok (.SafelyAborted, [.Done .SafelyAborted])) ∧
    (∀ env s3, swap env 3 (alice_state_from_db (Alice.BtcLocked s3)) =
        .ok (.SafelyAborted, [.Done .SafelyAborted])) ∧
    (∀ db : Alice, resume_aborts_on_missing_channel db ↔
        (has_volatile_channel db = true ∧ xmr_lock_published db = false)) ∧
    (∀ db : Alice, has_volatile_channel db = false →
      db ≠ .Done .SafelyAborted →
      ∀ s2, Reachable (alice_state_from_db db) s2 → s2 ≠ .SafelyAborted) := by
  refine ⟨fun env s3 => rfl, fun env s3 => rfl, fun db => ?_,
    fun db hvc hne s2 hr => ?_⟩
  · constructor
    · intro h
      have hx := h envAllOk
      cases db with
      | Negotiated s3 => exact ⟨rfl, rfl⟩
      | BtcLocked s3 => exact ⟨rfl, rfl⟩
      | Done e =>
          cases e <;>
            simp [alice_state_from_db, run_until_step, envAllOk] at hx
      | _ => simp [alice_state_from_db, run_until_step, envAllOk] at hx
    · rintro ⟨h1, -⟩
      cases db <;> simp [has_volatile_channel] at h1 <;> intro env <;> rfl
  · have hsafe : channel_safe (alice_state_from_db db) = true := by
      cases db with
      | Negotiated s3 => simp [has_volatile_channel] at hvc
      | BtcLocked s3 => simp [has_volatile_channel] at hvc
      | Done e =>
          cases e with
          | SafelyAborted => exact absurd rfl hne
          | BtcRedeemed => rfl
          | XmrRefunded => rfl
          | BtcPunished => rfl
      | _ => rfl
    have hs2 := reachable_channel_safe hr hsafe
    intro hcontra
    subst hcontra
    simp [channel_safe] at hs2

/-- Witness for C1 at concrete inputs: a resumed `Started` state
carries no channel field and can never reach `SafelyAborted`. -/
theorem c1_resume_missing_channel_witness :
    has_volatile_channel (Alice.Started ⟨1, 2⟩ ⟨0⟩) = false ∧
    (∀ s2, Reachable (alice_state_from_db (Alice.Started ⟨1, 2⟩ ⟨0⟩)) s2 →
      s2 ≠ .SafelyAborted) ∧
    resume_aborts_on_missing_channel (Alice.Negotiated s3ex) :=
  ⟨rfl,
   c1_resume_missing_channel.2.2.2 (Alice.Started ⟨1, 2⟩ ⟨0⟩) rfl (by decide),
   (c1_resume_missing_channel.2.2.1 (Alice.Negotiated s3ex)).2 ⟨rfl, rfl⟩⟩

/-- C3: `is_complete` holds exactly on the four variants
`XmrRefunded`, `BtcRedeemed`, `BtcPunished`, `SafelyAborted`;
`run_until` on any of them returns the state unchanged with no
checkpoint write, for every environment, target predicate and
positive fuel; and every other variant has at least one outgoing
transition. -/
theorem c3_terminal_states :
    (∀ s, is_complete s = true ↔
      (s = .XmrRefunded ∨ s = .BtcRedeemed ∨ s = .BtcPunished ∨
        s = .SafelyAborted)) ∧
    (∀ env pred fuel s, is_complete s = true →
      run_until env (fuel + 1) pred s = .ok (s, [])) ∧
    (∀ s, is_complete s = false → ∃ s2, StepTo s s2) := by
  refine ⟨fun s => ?_, fun env pred fuel s hs => ?_, fun s hs => ?_⟩
  · cases s <;> simp [is_complete]
  · cases s <;> simp only [is_complete] at hs <;>
      (try exact absurd hs (by decide)) <;>
      (simp only [run_until]; split <;> simp [run_until_step])
  · cases s with
    | Started amounts state0 =>
        exact ⟨_, envAllOk, Or.inl ⟨_, _, rfl⟩⟩
    | Negotiated channel amounts state3 =>
        cases channel with
        | some c => exact ⟨_, envAllOk, Or.inl ⟨_, _, rfl⟩⟩
        | none => exact ⟨_, envAllOk, Or.inl ⟨_, _, rfl⟩⟩
    | BtcLocked channel amounts state3 =>
        cases channel with
        | some c => exact ⟨_, envAllOk, Or.inl ⟨_, _, rfl⟩⟩
        | none => exact ⟨_, envAllOk, Or.inl ⟨_, _, rfl⟩⟩
    | XmrLocked state3 => exact ⟨_, envAllOk, Or.inl ⟨_, _, rfl⟩⟩
    | EncSigLearned state3 sig => exact ⟨_, envAllOk, Or.inl ⟨_, _, rfl⟩⟩
    | CancelTimelockExpired state3 => exact ⟨_, envAllOk, Or.inl ⟨_, _, rfl⟩⟩
    | BtcCancelled state3 txc => exact ⟨_, envAllOk, Or.inl ⟨_, _, rfl⟩⟩
    | BtcPunishable txr state3 => exact ⟨_, envAllOk, Or.inl ⟨_, _, rfl⟩⟩
    | BtcRefunded key state3 =>
        exact ⟨_, envAllOk,
          Or.inr ⟨_, rfl, fun hcontra => AliceState.noConfusion hcontra⟩⟩
    | XmrRefunded => exact absurd hs (by decide)
    | BtcRedeemed => exact absurd hs (by decide)
    | BtcPunished => exact absurd hs (by decide)
    | SafelyAborted => exact absurd hs (by decide)

/-- Witness for C3 at concrete inputs. -/
theorem c3_terminal_states_witness :
    run_until envAllOk 5 (fun _ => false) .BtcRedeemed =
      .ok (.BtcRedeemed, []) ∧
    ∃ s2, StepTo (.XmrLocked s3ex) s2 :=
  ⟨c3_terminal_states.2.1 envAllOk (fun _ => false) 4 .BtcRedeemed rfl,
   c3_terminal_states.2.2 (.XmrLocked s3ex) rfl⟩

/-- C4: at the two race states the successor is decided by whichever
awaited operation completes first (left of the `select` winning gives
`CancelTimelockExpired` respectively `BtcPunished`; right winning
gives `EncSigLearned` respectively `BtcRefunded`), and after the
decision the machine can never re-enter the race state, so the losing
operation of the decided race is never awaited again by the runner. -/
theorem c4_race_first_completion :
    (∀ env s3, env.expired_timelocks = .ok .None →
      (∀ r, env.xmr_locked_race = .inl r →
        run_until_step env (.XmrLocked s3) =
          .cont (.CancelTimelockExpired s3) [.CancelTimelockExpired s3] false) ∧
      (∀ sig, env.xmr_locked_race = .inr (.ok sig) →
        run_until_step env (.XmrLocked s3) =
          .cont (.EncSigLearned s3 sig) [.EncSigLearned s3 sig] false)) ∧
    (∀ env txr s3 tx, env.build_bitcoin_punish_transaction = .ok tx →
      (∀ r, env.punishable_race = .inl r →
        run_until_step env (.BtcPunishable txr s3) =
          .cont .BtcPunished [.Done .BtcPunished] false) ∧
      (∀ raw key, env.punishable_race = .inr raw →
        env.extract_monero_private_key raw txr = .ok key →
        run_until_step env (.BtcPunishable txr s3) =
          .cont (.BtcRefunded key s3) [.BtcRefunded s3 key] false)) ∧
    (∀ s3 s2, StepTo (.XmrLocked s3) s2 →
      ∀ t, Reachable s2 t → ∀ s3b, t ≠ .XmrLocked s3b) ∧
    (∀ txr s3 s2, StepTo (.BtcPunishable txr s3) s2 →
      ∀ t, Reachable s2 t → ∀ txrb s3b, t ≠ .BtcPunishable txrb s3b) := by
  refine ⟨fun env s3 ht => ⟨fun r hr => ?_, fun sig hr => ?_⟩,
    fun env txr s3 tx hb => ⟨fun r hr => ?_, fun raw key hr he => ?_⟩,
    fun s3 s2 hstep t hr s3b hcontra => ?_,
    fun txr s3 s2 hstep t hr txrb s3b hcontra => ?_⟩
  · simp [run_until_step, db_from_alice_state, ht, hr]
  · simp [run_until_step, db_from_alice_state, ht, hr]
  · simp [run_until_step, db_from_alice_state, hb, hr]
  · simp [run_until_step, db_from_alice_state, hb, hr, he]
  · subst hcontra
    have h1 := stepTo_rank_lt hstep
    have h2 := reachable_rank_le hr
    simp [rank] at h1 h2
    omega
  · subst hcontra
    have h1 := stepTo_rank_lt hstep
    have h2 := reachable_rank_le hr
    simp [rank] at h1 h2
    omega

/-- Witness for C4 at concrete inputs. -/
theorem c4_race_first_completion_witness :
    run_until_step envAllOk (.XmrLocked s3ex) =
      .cont (.EncSigLearned s3ex 0) [.EncSigLearned s3ex 0] false ∧
    run_until_step envAllOk (.BtcPunishable txrex s3ex) =
      .cont .BtcPunished [.Done .BtcPunished] false ∧
    (.EncSigLearned s3ex 0 : AliceState) ≠ .XmrLocked s3ex :=
  ⟨(c4_race_first_completion.1 envAllOk s3ex rfl).2 0 rfl,
   (c4_race_first_completion.2.1 envAllOk txrex s3ex 0 rfl).1 (.ok ()) rfl,
   c4_race_first_completion.2.2.1 s3ex (.EncSigLearned s3ex 0)
     ⟨envAllOk, Or.inl ⟨_, _, rfl⟩⟩ (.EncSigLearned s3ex 0)
     Relation.ReflTransGen.refl s3ex⟩

/-- C6: when the redeem transaction fails to build in `EncSigLearned`
(for example on a bad adaptor signature), the machine does not halt:
it waits for the cancel timelock, transitions to
`CancelTimelockExpired`, checkpoints that state, and (next step)
continues down the cancel path by publishing `tx_cancel` and
entering `BtcCancelled`. -/
theorem c6_redeem_build_failure_cancel_path :
    ∀ env s3 sig e txc,
      env.build_bitcoin_redeem_transaction s3 sig = .error e →
      env.wait_for_cancel_timelock_to_expire = .ok () →
      run_until_step env (.EncSigLearned s3 sig) =
        .cont (.CancelTimelockExpired s3) [.CancelTimelockExpired s3] false ∧
      (env.publish_cancel_transaction = .ok txc →
        run_until_step env (.CancelTimelockExpired s3) =
          .cont (.BtcCancelled s3 txc) [.BtcCancelled s3] false) := by
  intro env s3 sig e txc hb hw
  refine ⟨?_, fun hp => ?_⟩
  · simp [run_until_step, db_from_alice_state, hb, hw]
  · simp [run_until_step, db_from_alice_state, hp]

/-- Witness for C6 at concrete inputs. -/
theorem c6_redeem_build_failure_cancel_path_witness :
    run_until_step envBadAdaptor (.EncSigLearned s3ex 0) =
      .cont (.CancelTimelockExpired s3ex) [.CancelTimelockExpired s3ex] false ∧
    run_until_step envBadAdaptor (.CancelTimelockExpired s3ex) =
      .cont (.BtcCancelled s3ex ⟨0, 0, 0, 0⟩) [.BtcCancelled s3ex] false :=
  ⟨(c6_redeem_build_failure_cancel_path envBadAdaptor s3ex 0 7 ⟨0, 0, 0, 0⟩
      rfl rfl).1,
   (c6_redeem_build_failure_cancel_path envBadAdaptor s3ex 0 7 ⟨0, 0, 0, 0⟩
      rfl rfl).2 rfl⟩

/-- C7: every completed transition checkpoints exactly the successor
state (the serialised form of the state being entered), terminal
states processed by `run_until` write nothing, and a step that fails
writes nothing. -/
theorem c7_checkpoint_every_transition :
    ∀ env s,
      (∀ s2 ws sw, run_until_step env s = .cont s2 ws sw →
        ws = [db_from_alice_state s2]) ∧
      (∀ s2 ws, run_until_step env s = .ret s2 ws →
        (is_complete s = true ∧ s2 = s ∧ ws = []) ∨
        (s2 ≠ s ∧ ws = [db_from_alice_state s2])) ∧
      (∀ e ws, run_until_step env s = .fail e ws → ws = []) := by
  intro env s
  refine ⟨fun s2 ws sw h => ?_, fun s2 ws h => ?_, fun e ws h => ?_⟩
  · cases s <;> simp only [run_until_step] at h <;>
      (repeat' split at h) <;>
      first
        | exact StepRes.noConfusion h
        | (injection h with h1 h2 h3; subst h1; subst h2; rfl)
  · cases s <;> simp only [run_until_step] at h <;>
      (repeat' split at h) <;>
      first
        | exact StepRes.noConfusion h
        | (injection h with h1 h2; subst h1; subst h2;
           first
             | exact Or.inl ⟨rfl, rfl, rfl⟩
             | exact Or.inr
                 ⟨fun hcontra => AliceState.noConfusion hcontra, rfl⟩)
  · cases s <;> simp only [run_until_step] at h <;>
      (repeat' split at h) <;>
      first
        | exact StepRes.noConfusion h
        | (injection h with h1 h2; subst h2; rfl)

/-- C5 (counterexample): the claim states that for every
cryptographic error the machine halts and performs no further state
transition.  But when the redeem builder rejects the adaptor
signature as malformed in `EncSigLearned` (a cryptographic error by
the error taxonomy), the machine does not halt: it transitions to
`CancelTimelockExpired`, checkpoints it, and in this environment runs
all the way to `BtcPunished`. -/
theorem c5_crypto_error_counterexample :
    envBadAdaptor.build_bitcoin_redeem_transaction s3ex 0 = .error 7 ∧
    run_until_step envBadAdaptor (.EncSigLearned s3ex 0) =
      .cont (.CancelTimelockExpired s3ex) [.CancelTimelockExpired s3ex] false ∧
    swap envBadAdaptor 9 (.EncSigLearned s3ex 0) =
      .ok (.BtcPunished,
        [.CancelTimelockExpired s3ex, .BtcCancelled s3ex,
          .BtcPunishable s3ex, .Done .BtcPunished]) :=
  ⟨rfl, rfl, rfl⟩

/-- C5 (amended): a cryptographic error surfaced through the `?`
operator — `extract_monero_private_key` failing because the recovered
secret does not match the expected point, in the `BtcCancelled` and
`BtcPunishable` arms — is fatal: the step fails with that error,
performs no state transition and writes no checkpoint, and the whole
run halts surfacing the error.  (The malformed-adaptor failure of the
redeem builder in `EncSigLearned` is the exception: it routes to the
cancel path, see C6.) -/
theorem c5_extract_error_halts :
    (∀ env s3 txc txr raw e,
      env.wait_for_bitcoin_refund = .ok (txr, some raw) →
      env.extract_monero_private_key raw txr = .error e →
      run_until_step env (.BtcCancelled s3 txc) = .fail e []) ∧
    (∀ env txr s3 tx raw e,
      env.build_bitcoin_punish_transaction = .ok tx →
      env.punishable_race = .inr raw →
      env.extract_monero_private_key raw txr = .error e →
      run_until_step env (.BtcPunishable txr s3) = .fail e []) ∧
    (∀ env s3 txc txr raw e fuel pred,
      pred (.BtcCancelled s3 txc) = false →
      env.wait_for_bitcoin_refund = .ok (txr, some raw) →
      env.extract_monero_private_key raw txr = .error e →
      run_until env (fuel + 1) pred (.BtcCancelled s3 txc) = .error e) := by
  refine ⟨fun env s3 txc txr raw e hw he => ?_,
    fun env txr s3 tx raw e hb hr he => ?_,
    fun env s3 txc txr raw e fuel pred hp hw he => ?_⟩
  · simp [run_until_step, hw, he]
  · simp [run_until_step, hb, hr, he]
  · simp [run_until, run_until_step, hp, hw, he]

/-- Witness for the amended C5 at concrete inputs. -/
theorem c5_extract_error_halts_witness :
    run_until_step envBadExtract (.BtcCancelled s3ex ⟨0, 0, 0, 0⟩) =
      .fail 3 [] ∧
    run_until envBadExtract 4 is_complete (.BtcCancelled s3ex ⟨0, 0, 0, 0⟩) =
      .error 3 :=
  ⟨c5_extract_error_halts.1 envBadExtract s3ex ⟨0, 0, 0, 0⟩ txrex 5 3 rfl rfl,
   c5_extract_error_halts.2.2 envBadExtract s3ex ⟨0, 0, 0, 0⟩ txrex 5 3 3
     is_complete rfl rfl rfl⟩

/-- C10: in the `BtcCancelled` arm, when no refund transaction is
seen before the punish timelock, the continuation from
`BtcPunishable` onward is the `swap` call, which runs with the
`is_complete` predicate instead of the caller predicate; hence the
machine runs to a terminal state even when an intermediate state
(here `BtcPunishable` itself) satisfies the caller predicate, and
`run_until` can return a state that does not satisfy the predicate
it was given. -/
theorem c10_predicate_switch :
    (∀ env pred s3 txc txr fuel,
      pred (.BtcCancelled s3 txc) = false →
      env.wait_for_bitcoin_refund = .ok (txr, none) →
      run_until env (fuel + 1) pred (.BtcCancelled s3 txc) =
        (match run_until env fuel is_complete (.BtcPunishable txr s3) with
         | .ok (r, ws2) => .ok (r, Alice.BtcPunishable s3 :: ws2)
         | .error e2 => .error e2)) ∧
    (is_btc_punishable (.BtcPunishable txrex s3ex) = true ∧
      run_until envAllOk 8 is_btc_punishable
          (.BtcCancelled s3ex ⟨0, 0, 0, 0⟩) =
        .ok (.BtcPunished, [.BtcPunishable s3ex, .Done .BtcPunished]) ∧
      is_btc_punishable .BtcPunished = false) := by
  refine ⟨fun env pred s3 txc txr fuel hp hw => ?_, rfl, rfl, rfl⟩
  cases hres : run_until env fuel is_complete (.BtcPunishable txr s3) with
  | ok p =>
      cases p with
      | mk r ws2 =>
          simp [run_until, run_until_step, db_from_alice_state, hp, hw, hres]
  | error e2 =>
      simp [run_until, run_until_step, db_from_alice_state, hp, hw, hres]

/-- Witness for C10 at concrete inputs. -/
theorem c10_predicate_switch_witness :
    run_until envAllOk 8 (fun _ => false) (.BtcCancelled s3ex ⟨0, 0, 0, 0⟩) =
      .ok (.BtcPunished, [.BtcPunishable s3ex, .Done .BtcPunished]) := by
  have h := c10_predicate_switch.1 envAllOk (fun _ => false) s3ex ⟨0, 0, 0, 0⟩
    txrex 7 rfl rfl
  exact h.trans rfl

/-- Witness for C7 at concrete inputs. -/
theorem c7_checkpoint_every_transition_witness :
    ([Alice.Negotiated s3ex] : List Alice) =
      [db_from_alice_state (.Negotiated (some 0) ⟨1, 2⟩ s3ex)] :=
  (c7_checkpoint_every_transition envAllOk
      (.Started ⟨1, 2⟩ ⟨0⟩)).1 (.Negotiated (some 0) ⟨1, 2⟩ s3ex)
    [Alice.Negotiated s3ex] false rfl

/-- C8: the resolved happy and failure paths of the handler emit
exactly one terminal event for the request and park the direction in
`Done` (polling again emits nothing for it), but a failed outbound
dial upgrade does NOT surface as `OutboundFailed(peer, e)`:
`inject_dial_upgrade_error` is `unimplemented!` and aborts the
handler — here evaluated at a concrete handler awaiting its outbound
substream and a concrete upgrade error. -/
theorem c8_dial_upgrade_error_aborts :
    inject_dial_upgrade_error ⟨.None, .PendingSubstream 3, none⟩ 5 =
      .error .unimplemented_reached ∧
    NMessageHandler.poll ⟨fun _ => .failed 5⟩ ⟨.None, .ReadyToPoll 4, none⟩ =
      .ok (.Custom (.OutboundFailed 5), ⟨.None, .Done, none⟩) ∧
    NMessageHandler.poll ⟨fun _ => .failed 5⟩ ⟨.None, .Done, none⟩ =
      .ok (.Pending, ⟨.None, .Done, none⟩) :=
  ⟨rfl, rfl, rfl⟩

/-- C9 (counterexample): two outbound requests for the disconnected
peer 7 are submitted in order (protocol tokens 1 then 2); one poll
while the peer is disconnected rotates the queue; after the peer
connects, two polls deliver the requests in the order 2, 1 — not the
submission order — so delivery after reconnection is not FIFO under
all interleavings of submissions, disconnections and polls. -/
theorem c9_fifo_counterexample :
    ((NMessageBehaviour.new.do_protocol_dialer 7 1).do_protocol_dialer 7 2
      ).protocol_in_events =
      [(7, .ExecuteOutbound 1), (7, .ExecuteOutbound 2)] ∧
    (poll_n 2
        ((((NMessageBehaviour.new.do_protocol_dialer 7 1
          ).do_protocol_dialer 7 2).poll
          ).1.inject_connection_established 7 0)).2 =
      [.NotifyHandler 7 (.ExecuteOutbound 2),
        .NotifyHandler 7 (.ExecuteOutbound 1)] :=
  ⟨rfl, rfl⟩

theorem poll_out_events_in_events (b : NMessageBehaviour) :
    (poll_out_events b).1.protocol_in_events = b.protocol_in_events := by
  unfold poll_out_events
  cases hout : b.protocol_out_events with
  | nil => rfl
  | cons pe rest => cases pe; rfl

theorem poll_out_events_no_notify (b : NMessageBehaviour)
    (p2 : PeerId) (e2 : ProtocolInEvent) :
    (poll_out_events b).2 ≠ some (.NotifyHandler p2 e2) := by
  unfold poll_out_events
  cases hout : b.protocol_out_events with
  | nil => simp
  | cons pe rest => cases pe; simp

theorem poll_n_delivers_in_order
    (l : List (PeerId × ProtocolInEvent)) :
    ∀ b : NMessageBehaviour, b.protocol_in_events = l →
      (∀ pe ∈ l, contains_key b.connected_peers pe.1 = true) →
      b.protocol_out_events = [] →
      poll_n l.length b =
        ({ b with protocol_in_events := [] },
          l.map fun pe => .NotifyHandler pe.1 pe.2) := by
  induction l with
  | nil =>
      intro b hin hconn hout
      cases b
      simp_all [poll_n]
  | cons pe rest ih =>
      intro b hin hconn hout
      cases pe with
      | mk peer event =>
          have hc : contains_key b.connected_peers peer = true :=
            hconn (peer, event) (by simp [hin])
          have hpoll : b.poll =
              ({ b with protocol_in_events := rest },
                some (.NotifyHandler peer event)) := by
            unfold NMessageBehaviour.poll
            rw [hin]
            simp [hc]
          have hrest := ih { b with protocol_in_events := rest } rfl
            (fun pe2 hpe2 => hconn pe2 (by simp [hin, hpe2])) hout
          simp [poll_n, hpoll, hrest]

/-- C9 (amended): requests submitted while the peer is disconnected
are retained — a poll finding the head request addressed to a
disconnected peer moves it to the back of the queue without losing
it and delivers no handler notification — and delivery is FIFO in
submission order provided every queued peer is connected whenever
the behaviour is polled: polling as many times as there are queued
requests delivers exactly the queued requests, in queue (hence
submission) order; submissions append to the back of the queue. -/
theorem c9_queue_retention_and_fifo :
    (∀ (b : NMessageBehaviour) peer event rest,
      b.protocol_in_events = (peer, event) :: rest →
      contains_key b.connected_peers peer = false →
      b.poll.1.protocol_in_events = rest ++ [(peer, event)] ∧
      ∀ p2 e2, b.poll.2 ≠ some (.NotifyHandler p2 e2)) ∧
    (∀ b : NMessageBehaviour,
      (∀ pe ∈ b.protocol_in_events,
        contains_key b.connected_peers pe.1 = true) →
      b.protocol_out_events = [] →
      poll_n b.protocol_in_events.length b =
        ({ b with protocol_in_events := [] },
          b.protocol_in_events.map fun pe => .NotifyHandler pe.1 pe.2)) ∧
    (∀ (b : NMessageBehaviour) peer protocol_fn,
      (b.do_protocol_dialer peer protocol_fn).protocol_in_events =
        b.protocol_in_events ++ [(peer, .ExecuteOutbound protocol_fn)] ∧
      (b.do_protocol_listener peer protocol_fn).protocol_in_events =
        b.protocol_in_events ++ [(peer, .ExecuteInbound protocol_fn)]) := by
  refine ⟨fun b peer event rest hin hc => ?_,
    fun b hconn hout => poll_n_delivers_in_order _ b rfl hconn hout,
    fun b peer protocol_fn => ⟨rfl, rfl⟩⟩
  have hpoll : b.poll =
      poll_out_events
        { b with protocol_in_events := rest ++ [(peer, event)] } := by
    unfold NMessageBehaviour.poll
    rw [hin]
    simp [hc]
  rw [hpoll]
  exact ⟨poll_out_events_in_events _, fun p2 e2 =>
    poll_out_events_no_notify _ p2 e2⟩

/-- Witness for the amended C9 at concrete inputs: a queued request
for a disconnected peer is rotated, not delivered; two requests for a
connected peer are delivered in submission order. -/
theorem c9_queue_retention_and_fifo_witness :
    ((⟨[(9, .ExecuteInbound 4)], [], []⟩ :
        NMessageBehaviour).poll.1.protocol_in_events =
      [(9, .ExecuteInbound 4)] ∧
      ∀ p2 e2, (⟨[(9, .ExecuteInbound 4)], [], []⟩ :
        NMessageBehaviour).poll.2 ≠ some (.NotifyHandler p2 e2)) ∧
    poll_n 2
        (⟨[(7, .ExecuteOutbound 1), (7, .ExecuteOutbound 2)], [],
          [(7, [0])]⟩ : NMessageBehaviour) =
      (⟨[], [], [(7, [0])]⟩,
        [.NotifyHandler 7 (.ExecuteOutbound 1),
          .NotifyHandler 7 (.ExecuteOutbound 2)]) :=
  ⟨c9_queue_retention_and_fifo.1 ⟨[(9, .ExecuteInbound 4)], [], []⟩
      9 (.ExecuteInbound 4) [] rfl rfl,
   c9_queue_retention_and_fifo.2.1
      ⟨[(7, .ExecuteOutbound 1), (7, .ExecuteOutbound 2)], [], [(7, [0])]⟩
      (by decide) rfl⟩

end XmrBtcSwap
